import Mathlib

/-!
Verification of the bloomvsmap benchmark: an exact membership set
(a Go map from identifier to bool) is compared against two Bloom-filter
membership estimators.  We embed the record data model, the two chunk
processors, the reconciliation step (Confirm), the persistence step
(Save) and the relevant parts of main, and prove the specified
properties about them.
-/

namespace BloomVsMap

/-- Nested actor field of a record (struct inside Model). -/
structure Actor where
  Id : Int
  Login : String
  Grav : String
  Url : String
  Avatar : String
deriving DecidableEq, Repr

/-- Nested repo field of a record. -/
structure Repo where
  Id : Int
  Name : String
  Url : String
deriving DecidableEq, Repr

/-- Author of a commit inside a record payload. -/
structure CommitAuthor where
  Email : String
  Name : String
deriving DecidableEq, Repr

/-- One commit entry inside a record payload. -/
structure Commit where
  Sha : String
  Author : CommitAuthor
  Message : String
  Distinct : Bool
  Url : String
deriving DecidableEq, Repr

/-- Payload field of a record. -/
structure Payload where
  Action : String
  Ref : String
  RefType : String
  MasterBranch : String
  Description : String
  PusherType : String
  Head : String
  Before : String
  Commits : List Commit
deriving DecidableEq, Repr

/-- A decoded event record (Go struct Model).  The core only consumes
Id and Type; the remaining fields are carried along untouched. -/
structure Model where
  Id : String
  Type' : String
  Public : Bool
  CreatedAt : String
  Actor : Actor
  Repo : Repo
  Payload : Payload
deriving DecidableEq, Repr

/-- Modelled from the spec: the probabilistic membership estimator is
provided by the external bits-and-blooms Bloom-filter library, whose
source is not part of this repository.  Per the spec it is a fixed-size
bit array of m bits with k hash functions, derived once at construction
and immutable afterward.  We represent the bit array by the finite set
of positions whose bit is set. -/
structure Estimator where
  m : Nat
  k : Nat
  bits : Finset Nat
deriving DecidableEq

/-- Modelled from the spec: the bit positions an identifier hashes to.
The library derives k positions from the identifier, each reduced
modulo the bit-array size; we parametrize over the hash family
hash : index -> identifier -> Nat. -/
def locations (hash : Nat → String → Nat) (m : Nat) (k : Nat) (s : String) : Finset Nat :=
  (Finset.range k).image (fun i => hash i s % m)

/-- Modelled from the spec: Insert adds the identifier's hash-derived
bit positions to the internal bit array (AddString in the library). -/
def Estimator.addString (hash : Nat → String → Nat) (e : Estimator) (s : String) : Estimator :=
  { e with bits := e.bits ∪ locations hash e.m e.k s }

/-- Modelled from the spec: Test returns true if all hash-derived bit
positions for the identifier are set (TestString in the library). -/
def Estimator.testString (hash : Nat → String → Nat) (e : Estimator) (s : String) : Bool :=
  decide (locations hash e.m e.k s ⊆ e.bits)

/-- Insert a list of identifiers in order. -/
def Estimator.addList (hash : Nat → String → Nat) (e : Estimator) (l : List String) : Estimator :=
  l.foldl (Estimator.addString hash) e

/-- Insert the same identifier n times. -/
def Estimator.addNTimes (hash : Nat → String → Nat) (e : Estimator) (s : String) (n : Nat) : Estimator :=
  Nat.rec e (fun _ acc => acc.addString hash s) n

/-- Modelled from the spec: Serialize produces a byte encoding
capturing the bit array and its configuration (capacity, hash count)
sufficient for exact reconstruction (GobEncode in the library).  We
encode the configuration followed by the sorted list of set bits. -/
def Estimator.gobEncode (e : Estimator) : Nat × Nat × List Nat :=
  (e.m, e.k, e.bits.sort (· ≤ ·))

/-- Modelled from the spec: Deserialize reconstructs an estimator from
its serialized form (GobDecode in the library). -/
def gobDecode (enc : Nat × Nat × List Nat) : Estimator :=
  { m := enc.1, k := enc.2.1, bits := enc.2.2.toFinset }

/-- Modelled from the spec: bloom.NewWithEstimates(n, fp) derives a bit
array size and hash count from the expected element count and target
false-positive probability via floating-point formulas in the external
library; we take the derived pair (m, k) as parameters and start with
an empty bit array. -/
def newEstimator (m k : Nat) : Estimator :=
  { m := m, k := k, bits := ∅ }

/-- ProcessChunkUsingMap: if the record type is "PushEvent", insert the
record id into the exact set (pushEventMap[md.Id] = true).  The Go map
from string to bool is represented by its key set. -/
def ProcessChunkUsingMap (md : Model) (pushEventMap : Finset String) : Finset String :=
  if md.Type' = "PushEvent" then insert md.Id pushEventMap else pushEventMap

/-- The two estimator globals blomfil and halfblomfil. -/
structure BloomSt where
  blomfil : Estimator
  halfblomfil : Estimator
deriving DecidableEq

/-- ProcessChunkUsingBloom: if the record type is "PushEvent", add the
record id to both estimators. -/
def ProcessChunkUsingBloom (hash : Nat → String → Nat) (md : Model) (st : BloomSt) : BloomSt :=
  if md.Type' = "PushEvent" then
    { blomfil := st.blomfil.addString hash md.Id
      halfblomfil := st.halfblomfil.addString hash md.Id }
  else st

/-- One full pass over a record sequence with ProcessChunkUsingMap. -/
def runMapPass (recs : List Model) (s : Finset String) : Finset String :=
  recs.foldl (fun acc md => ProcessChunkUsingMap md acc) s

/-- One full pass over a record sequence with ProcessChunkUsingBloom. -/
def runBloomPass (hash : Nat → String → Nat) (recs : List Model) (st : BloomSt) : BloomSt :=
  recs.foldl (fun acc md => ProcessChunkUsingBloom hash md acc) st

/-- The four counters printed by Confirm. -/
structure Tally where
  hitCount : Nat
  missCount : Nat
  halfCoount : Nat
  mhalfCount : Nat
deriving DecidableEq, Repr

/-- Confirm: iterate over every key of the exact set; per estimator,
count the keys whose TestString is true (hit) and those whose
TestString is false (miss).  The Go loop visits each key once in
arbitrary map order and increments exactly one counter per filter, so
each counter is the cardinality of the corresponding filtered key
set. -/
def Confirm (hash : Nat → String → Nat) (pushEventMap : Finset String)
    (blomfil halfblomfil : Estimator) : Tally :=
  { hitCount := (pushEventMap.filter (fun key => blomfil.testString hash key = true)).card
    missCount := (pushEventMap.filter (fun key => blomfil.testString hash key = false)).card
    halfCoount := (pushEventMap.filter (fun key => halfblomfil.testString hash key = true)).card
    mhalfCount := (pushEventMap.filter (fun key => halfblomfil.testString hash key = false)).card }

/-- Outcome of a run fragment: either it completes normally or a
log.Fatal terminates the process. -/
inductive Outcome (α : Type) where
  | completed (a : α) : Outcome α
  | fatal : Outcome α
deriving DecidableEq, Repr

/-- readAllStreamingInternal: fetch the body (fetchErr is the error of
client.Get), read the opening token (tokenErr is the error of
dec.Token), then loop: each item of the stream either decodes to a
Model or fails (Except.error).  A decode failure is logged and
skipped; a success is appended to dataModel and passed to proc.
The state threaded through proc and the final dataModel length are
returned. -/
def readAllStreamingInternal {σ : Type} (proc : σ → Model → σ)
    (fetchErr : Option Unit) (tokenErr : Option Unit)
    (items : List (Except Unit Model)) (s : σ) : Outcome (σ × Nat) :=
  match fetchErr with
  | some _ => Outcome.fatal
  | none =>
    match tokenErr with
    | some _ => Outcome.fatal
    | none =>
      Outcome.completed (items.foldl
        (fun acc it =>
          match it with
          | Except.error _ => acc
          | Except.ok m => (proc acc.1 m, acc.2 + 1))
        (s, 0))

/-- readAllInMemoryInternal: fetch the body (fetchErr is the error of
client.Get), read all bytes (readErr is the error of io.ReadAll), then
json.Unmarshal the whole buffer into a list of Models; any unmarshal
failure is log.Fatalf (fatal), otherwise every record is passed to
proc in order. -/
def readAllInMemoryInternal {σ : Type} (proc : σ → Model → σ)
    (fetchErr : Option Unit) (readErr : Option Unit)
    (unmarshal : Except Unit (List Model)) (s : σ) : Outcome (σ × Nat) :=
  match fetchErr with
  | some _ => Outcome.fatal
  | none =>
    match readErr with
    | some _ => Outcome.fatal
    | none =>
      match unmarshal with
      | Except.error _ => Outcome.fatal
      | Except.ok dataModel => Outcome.completed (dataModel.foldl proc s, dataModel.length)

/-- Save: os.Create may fail (createErr), in which case the error is
returned.  Otherwise a gzip writer wraps the file and fz.Write(data)
is called with its return values discarded (writeErr is the error that
write would report); the function then returns err, which on this path
is the nil error left over from os.Create. -/
def Save (createErr : Option Unit) (writeErr : Option Unit) : Option Unit :=
  match createErr with
  | some e => some e
  | none => none

/-- Errors the persistence phase of main may encounter: the three gob
encodes and, for each of the three Save calls, the create and write
errors. -/
structure PersistErrors where
  gobBloomErr : Option Unit
  gobHalfErr : Option Unit
  gobMapErr : Option Unit
  mapCreateErr : Option Unit
  mapWriteErr : Option Unit
  bloomCreateErr : Option Unit
  bloomWriteErr : Option Unit
  halfCreateErr : Option Unit
  halfWriteErr : Option Unit

/-- The tail of main after the two passes: GobEncode the full filter,
the half filter and the exact set, each with log.Fatalf on error; then
three Save calls whose return values are discarded; then Confirm.  The
run completes with the Confirm tally unless one of the encodes
fails. -/
def mainPersistAndConfirm (hash : Nat → String → Nat) (pushEventMap : Finset String)
    (blomfil halfblomfil : Estimator) (errs : PersistErrors) : Outcome Tally :=
  match errs.gobBloomErr with
  | some _ => Outcome.fatal
  | none =>
    match errs.gobHalfErr with
    | some _ => Outcome.fatal
    | none =>
      match errs.gobMapErr with
      | some _ => Outcome.fatal
      | none =>
        let _ := Save errs.mapCreateErr errs.mapWriteErr
        let _ := Save errs.bloomCreateErr errs.bloomWriteErr
        let _ := Save errs.halfCreateErr errs.halfWriteErr
        Outcome.completed (Confirm hash pushEventMap blomfil halfblomfil)

/-- Config as in the source: the tracing switch and the trace file
name. -/
structure Config where
  TracingEnabled : Bool
  TraceFile : String
deriving DecidableEq, Repr

/-- A flag variable as returned by flag.Bool: it holds the default
value until flag.Parse copies the command-line value into it.  main
never calls flag.Parse, so the value read through the pointer is the
registered default. -/
def flagBool (defaultVal : Bool) : Bool :=
  defaultVal

/-- The Config main builds: enableTracing := flag.Bool("e", true, ...)
is dereferenced without any intervening flag.Parse, so TracingEnabled
is the default true whatever the command-line arguments are. -/
def mainConfig (args : List String) : Config :=
  let enableTracing := flagBool true
  { TracingEnabled := enableTracing, TraceFile := "bloomtrace.trace.out" }

/-- What setupTracing does: nothing when tracing is disabled;
otherwise it creates the trace file (fatal on error) and starts the
tracer (fatal on error). -/
inductive TraceSetup where
  | noop : TraceSetup
  | started : TraceSetup
  | fatal : TraceSetup
deriving DecidableEq, Repr

/-- setupTracing: returns a no-op closer if cfg.TracingEnabled is
false; otherwise os.Create(cfg.TraceFile) (fatal on error) and
trace.Start (fatal on error) are run and tracing is active. -/
def setupTracing (cfg : Config) (createErr : Option Unit) (startErr : Option Unit) : TraceSetup :=
  if !cfg.TracingEnabled then TraceSetup.noop
  else
    match createErr with
    | some _ => TraceSetup.fatal
    | none =>
      match startErr with
      | some _ => TraceSetup.fatal
      | none => TraceSetup.started

/-- Modelled from the spec: the value the boolean flag "-e" would hold
after parsing the command line, per Go flag syntax (a bare -e sets it
true, -e=false sets it false; the last occurrence wins; default
true).  This is the spec's reading of "one boolean flag controlling
whether execution tracing/profiling is enabled", used to compare with
what main actually does. -/
def parsedFlagE (args : List String) : Bool :=
  args.foldl
    (fun acc a =>
      if a = "-e" ∨ a = "-e=true" ∨ a = "--e" ∨ a = "--e=true" then true
      else if a = "-e=false" ∨ a = "--e=false" then false
      else acc)
    true

/-- The ids of the PushEvent records of a sequence, in order. -/
def pushIds (recs : List Model) : List String :=
  (recs.filter (fun r => r.Type' == "PushEvent")).map Model.Id

/-- A sample hash family used for concrete evaluations. -/
def hashSample (i : Nat) (s : String) : Nat :=
  i + 3 * s.length

/-- Build a record with the given id and type; the payload fields the
core never reads are filled with defaults. -/
def mkRecord (id ty : String) : Model :=
  { Id := id
    Type' := ty
    Public := true
    CreatedAt := ""
    Actor := { Id := 0, Login := "", Grav := "", Url := "", Avatar := "" }
    Repo := { Id := 0, Name := "", Url := "" }
    Payload :=
      { Action := "", Ref := "", RefType := "", MasterBranch := "", Description := ""
        PusherType := "", Head := "", Before := "", Commits := [] } }

theorem addString_m (hash : Nat → String → Nat) (e : Estimator) (s : String) :
    (e.addString hash s).m = e.m := rfl

theorem addString_k (hash : Nat → String → Nat) (e : Estimator) (s : String) :
    (e.addString hash s).k = e.k := rfl

theorem bits_subset_addString (hash : Nat → String → Nat) (e : Estimator) (s : String) :
    e.bits ⊆ (e.addString hash s).bits :=
  Finset.subset_union_left

theorem testString_mono (hash : Nat → String → Nat) {e e' : Estimator} (s : String)
    (hm : e.m = e'.m) (hk : e.k = e'.k) (hb : e.bits ⊆ e'.bits)
    (ht : e.testString hash s = true) : e'.testString hash s = true := by
  simp only [Estimator.testString, decide_eq_true_eq] at ht ⊢
  rw [← hm, ← hk]
  exact ht.trans hb

theorem testString_addString_self (hash : Nat → String → Nat) (e : Estimator) (s : String) :
    (e.addString hash s).testString hash s = true := by
  simp only [Estimator.testString, Estimator.addString, decide_eq_true_eq]
  exact Finset.subset_union_right

theorem addList_m (hash : Nat → String → Nat) (e : Estimator) (l : List String) :
    (e.addList hash l).m = e.m := by
  induction l generalizing e with
  | nil => rfl
  | cons a t ih => exact ih (e.addString hash a)

theorem addList_k (hash : Nat → String → Nat) (e : Estimator) (l : List String) :
    (e.addList hash l).k = e.k := by
  induction l generalizing e with
  | nil => rfl
  | cons a t ih => exact ih (e.addString hash a)

theorem bits_subset_addList (hash : Nat → String → Nat) (e : Estimator) (l : List String) :
    e.bits ⊆ (e.addList hash l).bits := by
  induction l generalizing e with
  | nil => exact Finset.Subset.refl _
  | cons a t ih =>
    exact (bits_subset_addString hash e a).trans (ih (e.addString hash a))

theorem testString_addList_mono (hash : Nat → String → Nat) (e : Estimator) (l : List String)
    (s : String) (ht : e.testString hash s = true) :
    (e.addList hash l).testString hash s = true :=
  testString_mono hash s (addList_m hash e l).symm (addList_k hash e l).symm
    (bits_subset_addList hash e l) ht

theorem testString_addList_of_mem (hash : Nat → String → Nat) (e : Estimator)
    (l : List String) (s : String) (hs : s ∈ l) :
    (e.addList hash l).testString hash s = true := by
  induction l generalizing e with
  | nil => cases hs
  | cons a t ih =>
    rcases List.mem_cons.mp hs with h | h
    · subst h
      exact testString_addList_mono hash _ t s (testString_addString_self hash e s)
    · exact ih (e.addString hash a) h

theorem runBloomPass_blomfil (hash : Nat → String → Nat) (recs : List Model) (st : BloomSt) :
    (runBloomPass hash recs st).blomfil = st.blomfil.addList hash (pushIds recs) := by
  induction recs generalizing st with
  | nil => rfl
  | cons md t ih =>
    show (runBloomPass hash t (ProcessChunkUsingBloom hash md st)).blomfil = _
    rw [ih]
    by_cases h : md.Type' = "PushEvent"
    · simp [ProcessChunkUsingBloom, h, pushIds, Estimator.addList]
    · simp [ProcessChunkUsingBloom, h, pushIds]

theorem runBloomPass_halfblomfil (hash : Nat → String → Nat) (recs : List Model) (st : BloomSt) :
    (runBloomPass hash recs st).halfblomfil = st.halfblomfil.addList hash (pushIds recs) := by
  induction recs generalizing st with
  | nil => rfl
  | cons md t ih =>
    show (runBloomPass hash t (ProcessChunkUsingBloom hash md st)).halfblomfil = _
    rw [ih]
    by_cases h : md.Type' = "PushEvent"
    · simp [ProcessChunkUsingBloom, h, pushIds, Estimator.addList]
    · simp [ProcessChunkUsingBloom, h, pushIds]

theorem mem_runMapPass (recs : List Model) (s : Finset String) (x : String) :
    x ∈ runMapPass recs s ↔ x ∈ s ∨ ∃ r ∈ recs, r.Type' = "PushEvent" ∧ r.Id = x := by
  induction recs generalizing s with
  | nil => simp [runMapPass]
  | cons md t ih =>
    simp only [runMapPass, List.foldl_cons] at *
    rw [ih]
    by_cases h : md.Type' = "PushEvent"
    · simp only [ProcessChunkUsingMap, if_pos h, Finset.mem_insert, List.mem_cons]
      constructor
      · rintro (⟨h1 | h1⟩ | ⟨r, hr, hty, hid⟩)
        · exact Or.inr ⟨md, Or.inl rfl, h, h1.symm⟩
        · exact Or.inl h1
        · exact Or.inr ⟨r, Or.inr hr, hty, hid⟩
      · rintro (h1 | ⟨r, hr | hr, hty, hid⟩)
        · exact Or.inl (Or.inr h1)
        · exact Or.inl (Or.inl (hr ▸ hid.symm))
        · exact Or.inr ⟨r, hr, hty, hid⟩
    · simp only [ProcessChunkUsingMap, if_neg h, List.mem_cons]
      constructor
      · rintro (h1 | ⟨r, hr, hty, hid⟩)
        · exact Or.inl h1
        · exact Or.inr ⟨r, Or.inr hr, hty, hid⟩
      · rintro (h1 | ⟨r, hr | hr, hty, hid⟩)
        · exact Or.inl h1
        · exact absurd (hr ▸ hty) h
        · exact Or.inr ⟨r, hr, hty, hid⟩

theorem mem_pushIds (recs : List Model) (x : String) :
    x ∈ pushIds recs ↔ ∃ r ∈ recs, r.Type' = "PushEvent" ∧ r.Id = x := by
  simp only [pushIds, List.mem_map, List.mem_filter, beq_iff_eq]
  constructor
  · rintro ⟨r, ⟨hr, hty⟩, hid⟩
    exact ⟨r, hr, hty, hid⟩
  · rintro ⟨r, hr, hty, hid⟩
    exact ⟨r, ⟨hr, hty⟩, hid⟩

theorem addString_comm (hash : Nat → String → Nat) (e : Estimator) (a b : String) :
    (e.addString hash a).addString hash b = (e.addString hash b).addString hash a := by
  simp only [Estimator.addString, Finset.union_assoc]
  rw [Finset.union_comm (locations hash e.m e.k a)]

theorem addString_idem (hash : Nat → String → Nat) (e : Estimator) (s : String) :
    (e.addString hash s).addString hash s = e.addString hash s := by
  simp [Estimator.addString, Finset.union_assoc]

theorem addNTimes_eq_addString (hash : Nat → String → Nat) (e : Estimator) (s : String) :
    ∀ n : Nat, 1 ≤ n → e.addNTimes hash s n = e.addString hash s := by
  intro n hn
  induction n with
  | zero => cases hn
  | succ j ih =>
    cases Nat.eq_zero_or_pos j with
    | inl hz => subst hz; rfl
    | inr hp =>
      show (e.addNTimes hash s j).addString hash s = e.addString hash s
      rw [ih hp, addString_idem]

theorem filter_bool_card (s : Finset String) (p : String → Bool) :
    (s.filter (fun key => p key = true)).card + (s.filter (fun key => p key = false)).card
      = s.card := by
  have h := Finset.filter_card_add_filter_neg_card_eq_card
    (s := s) (p := fun key => p key = true)
  rw [← h]
  congr 1
  congr 1
  apply Finset.filter_congr
  intro x _
  simp

theorem gobDecode_gobEncode (e : Estimator) : gobDecode e.gobEncode = e := by
  simp [gobDecode, Estimator.gobEncode, Finset.sort_toFinset]

/-- C10: for every state of the exact set and the two estimators, the
four tallies of Confirm partition the exact set twice: full-filter
hits plus misses equal the key count, and half-filter hits plus misses
equal it as well. -/
theorem confirm_tallies_partition (hash : Nat → String → Nat) (pushEventMap : Finset String)
    (blomfil halfblomfil : Estimator) :
    (Confirm hash pushEventMap blomfil halfblomfil).hitCount
        + (Confirm hash pushEventMap blomfil halfblomfil).missCount = pushEventMap.card ∧
    (Confirm hash pushEventMap blomfil halfblomfil).halfCoount
        + (Confirm hash pushEventMap blomfil halfblomfil).mhalfCount = pushEventMap.card :=
  ⟨filter_bool_card pushEventMap (fun key => blomfil.testString hash key),
   filter_bool_card pushEventMap (fun key => halfblomfil.testString hash key)⟩

/-- C2: an identifier inserted into an estimator tests true immediately
after the insertion and after any sequence of subsequent insertions of
other identifiers: the estimator never reports a false negative for an
inserted element. -/
theorem no_false_negatives (hash : Nat → String → Nat) (e : Estimator) (s : String)
    (later : List String) :
    (e.addString hash s).testString hash s = true ∧
    ((e.addString hash s).addList hash later).testString hash s = true :=
  ⟨testString_addString_self hash e s,
   testString_addList_mono hash _ later s (testString_addString_self hash e s)⟩

/-- C7: deserializing the bytes produced by serializing an estimator
yields an estimator whose Test result equals the original's on every
identifier, inserted or not. -/
theorem roundtrip_serialization (hash : Nat → String → Nat) (e : Estimator) (q : String) :
    (gobDecode e.gobEncode).testString hash q = e.testString hash q := by
  rw [gobDecode_gobEncode]

/-- C5: in streaming delivery mode a record that fails to decode is
logged and skipped and the pass continues with the remaining records
(the processed state equals that of the stream without the malformed
record, and the pass completes); in whole-buffer delivery mode any
decode failure of the buffer aborts the pass fatally. -/
theorem decode_error_policy {σ : Type} (proc : σ → Model → σ)
    (xs ys : List (Except Unit Model)) (s : σ) (fetchErr readErr : Option Unit) :
    readAllStreamingInternal proc none none (xs ++ Except.error () :: ys) s
      = readAllStreamingInternal proc none none (xs ++ ys) s ∧
    (∃ res, readAllStreamingInternal proc none none (xs ++ Except.error () :: ys) s
      = Outcome.completed res) ∧
    readAllInMemoryInternal proc fetchErr readErr (Except.error ()) s = Outcome.fatal := by
  refine ⟨?_, ⟨_, rfl⟩, ?_⟩
  · simp [readAllStreamingInternal, List.foldl_append]
  · cases fetchErr <;> cases readErr <;> rfl

/-- C4: a record's identifier is inserted into the exact set or the
estimators if and only if its Type field equals "PushEvent"; records
of any other type leave the set and both estimators unchanged, and
after a full pass the exact set holds exactly the PushEvent
identifiers while the estimators have absorbed exactly the PushEvent
identifier list. -/
theorem classifier_selectivity (hash : Nat → String → Nat) (md : Model) (s : Finset String)
    (st : BloomSt) (recs : List Model) (x : String) :
    (md.Type' = "PushEvent" →
      ProcessChunkUsingMap md s = insert md.Id s ∧
      (ProcessChunkUsingBloom hash md st).blomfil = st.blomfil.addString hash md.Id ∧
      (ProcessChunkUsingBloom hash md st).halfblomfil = st.halfblomfil.addString hash md.Id) ∧
    (md.Type' ≠ "PushEvent" →
      ProcessChunkUsingMap md s = s ∧ ProcessChunkUsingBloom hash md st = st) ∧
    (x ∈ runMapPass recs ∅ ↔ ∃ r ∈ recs, r.Type' = "PushEvent" ∧ r.Id = x) ∧
    (runBloomPass hash recs st).blomfil = st.blomfil.addList hash (pushIds recs) ∧
    (runBloomPass hash recs st).halfblomfil = st.halfblomfil.addList hash (pushIds recs) := by
  refine ⟨fun h => ?_, fun h => ?_, ?_, runBloomPass_blomfil hash recs st,
    runBloomPass_halfblomfil hash recs st⟩
  · exact ⟨by simp [ProcessChunkUsingMap, h], by simp [ProcessChunkUsingBloom, h],
      by simp [ProcessChunkUsingBloom, h]⟩
  · exact ⟨by simp [ProcessChunkUsingMap, h], by simp [ProcessChunkUsingBloom, h]⟩
  · rw [mem_runMapPass]
    simp

/-- Witness for C4 at concrete records: a PushEvent record is inserted
and a WatchEvent record leaves the set unchanged. -/
theorem classifier_selectivity_witness :
    ProcessChunkUsingMap (mkRecord "1" "PushEvent") ∅ = insert "1" ∅ ∧
    ProcessChunkUsingMap (mkRecord "2" "WatchEvent") ∅ = ∅ :=
  ⟨((classifier_selectivity hashSample (mkRecord "1" "PushEvent") ∅
      ⟨newEstimator 8 3, newEstimator 4 3⟩ [] "x").1 (by decide)).1,
   ((classifier_selectivity hashSample (mkRecord "2" "WatchEvent") ∅
      ⟨newEstimator 8 3, newEstimator 4 3⟩ [] "x").2.1 (by decide)).1⟩

/-- C1: after a map pass over a record sequence starting from an empty
set and a bloom pass over the same sequence starting from two freshly
constructed estimators, Confirm reports miss count 0 and hit count
equal to the exact set's size for both estimators. -/
theorem reconciliation_zero_miss (hash : Nat → String → Nat) (recs : List Model)
    (m1 k1 m2 k2 : Nat) :
    Confirm hash (runMapPass recs ∅)
      (runBloomPass hash recs ⟨newEstimator m1 k1, newEstimator m2 k2⟩).blomfil
      (runBloomPass hash recs ⟨newEstimator m1 k1, newEstimator m2 k2⟩).halfblomfil =
    { hitCount := (runMapPass recs ∅).card, missCount := 0,
      halfCoount := (runMapPass recs ∅).card, mhalfCount := 0 } := by
  have key : ∀ x ∈ runMapPass recs ∅, ∀ e : Estimator,
      (e.addList hash (pushIds recs)).testString hash x = true := by
    intro x hx e
    apply testString_addList_of_mem
    rw [mem_pushIds]
    rcases (mem_runMapPass recs ∅ x).mp hx with h | h
    · exact absurd h (Finset.not_mem_empty x)
    · exact h
  rw [runBloomPass_blomfil, runBloomPass_halfblomfil]
  have h1 := Finset.filter_true_of_mem
    (p := fun x => ((newEstimator m1 k1).addList hash (pushIds recs)).testString hash x = true)
    (fun x hx => key x hx (newEstimator m1 k1))
  have h2 := Finset.filter_false_of_mem
    (p := fun x => ((newEstimator m1 k1).addList hash (pushIds recs)).testString hash x = false)
    (s := runMapPass recs ∅)
    (fun x hx => by simp [key x hx (newEstimator m1 k1)])
  have h3 := Finset.filter_true_of_mem
    (p := fun x => ((newEstimator m2 k2).addList hash (pushIds recs)).testString hash x = true)
    (fun x hx => key x hx (newEstimator m2 k2))
  have h4 := Finset.filter_false_of_mem
    (p := fun x => ((newEstimator m2 k2).addList hash (pushIds recs)).testString hash x = false)
    (s := runMapPass recs ∅)
    (fun x hx => by simp [key x hx (newEstimator m2 k2)])
  simp [Confirm, h1, h2, h3, h4]

/-- C6: inserting the same identifier n times, for n at least 1,
yields an estimator with the same Test results on every query and the
same serialized output as inserting it once. -/
theorem idempotent_insertion (hash : Nat → String → Nat) (e : Estimator) (s : String)
    (n : Nat) (hn : 1 ≤ n) (q : String) :
    (e.addNTimes hash s n).testString hash q = (e.addString hash s).testString hash q ∧
    (e.addNTimes hash s n).gobEncode = (e.addString hash s).gobEncode := by
  rw [addNTimes_eq_addString hash e s n hn]
  exact ⟨rfl, rfl⟩

/-- Witness for C6 at a concrete estimator, identifier and n = 3. -/
theorem idempotent_insertion_witness :
    ((newEstimator 8 3).addNTimes hashSample "a" 3).testString hashSample "bc"
      = ((newEstimator 8 3).addString hashSample "a").testString hashSample "bc" ∧
    ((newEstimator 8 3).addNTimes hashSample "a" 3).gobEncode
      = ((newEstimator 8 3).addString hashSample "a").gobEncode :=
  idempotent_insertion hashSample (newEstimator 8 3) "a" 3 (by decide) "bc"

/-- C8: processing any permutation of a record sequence yields the
same final exact set and the same final estimator states as the
original sequence: both passes are insertion-order-insensitive. -/
theorem order_insensitivity (hash : Nat → String → Nat) (recs recsPerm : List Model)
    (hperm : recs.Perm recsPerm) (s : Finset String) (st : BloomSt) :
    runMapPass recs s = runMapPass recsPerm s ∧
    runBloomPass hash recs st = runBloomPass hash recsPerm st := by
  constructor
  · refine hperm.foldl_eq' (fun x _ y _ z => ?_) s
    simp only [ProcessChunkUsingMap]
    by_cases hx : x.Type' = "PushEvent" <;> by_cases hy : y.Type' = "PushEvent" <;>
      simp [hx, hy, Finset.Insert.comm]
  · refine hperm.foldl_eq' (fun x _ y _ z => ?_) st
    simp only [ProcessChunkUsingBloom]
    by_cases hx : x.Type' = "PushEvent" <;> by_cases hy : y.Type' = "PushEvent" <;>
      simp [hx, hy, addString_comm]

/-- Witness for C8: a concrete two-record sequence and its reversal
give the same exact set and estimator states. -/
theorem order_insensitivity_witness :
    runMapPass [mkRecord "1" "PushEvent", mkRecord "2" "PushEvent"] ∅
      = runMapPass [mkRecord "2" "PushEvent", mkRecord "1" "PushEvent"] ∅ ∧
    runBloomPass hashSample [mkRecord "1" "PushEvent", mkRecord "2" "PushEvent"]
        ⟨newEstimator 8 3, newEstimator 4 3⟩
      = runBloomPass hashSample [mkRecord "2" "PushEvent", mkRecord "1" "PushEvent"]
        ⟨newEstimator 8 3, newEstimator 4 3⟩ :=
  order_insensitivity hashSample
    [mkRecord "1" "PushEvent", mkRecord "2" "PushEvent"]
    [mkRecord "2" "PushEvent", mkRecord "1" "PushEvent"]
    (List.Perm.swap (mkRecord "2" "PushEvent") (mkRecord "1" "PushEvent") [])
    ∅ ⟨newEstimator 8 3, newEstimator 4 3⟩

/-- Counterexample to C3 as stated: with the exact set empty, the two
estimators fresh and a failing os.Create on the first Save (map
bytes), the run does not abort fatally: mainPersistAndConfirm still
completes with the Confirm tally, because main discards the Save
return values. -/
theorem save_failure_not_fatal_cx :
    Save (some ()) none = some () ∧
    mainPersistAndConfirm hashSample ∅ (newEstimator 8 3) (newEstimator 4 3)
      { gobBloomErr := none, gobHalfErr := none, gobMapErr := none
        mapCreateErr := some (), mapWriteErr := some ()
        bloomCreateErr := some (), bloomWriteErr := some ()
        halfCreateErr := some (), halfWriteErr := some () }
      ≠ Outcome.fatal := by
  constructor
  · rfl
  · intro h
    cases h

/-- C3 amended: Save returns the file-creation error to its caller (a
failed compressed write is never detected, since the gzip write's
result is discarded and the returned err is the nil one left from
os.Create); main in turn discards Save's return value, so once the
three gob encodes succeed the run always continues to Confirm,
whatever the persistence errors. -/
theorem save_errors_ignored (hash : Nat → String → Nat) (pushEventMap : Finset String)
    (blomfil halfblomfil : Estimator)
    (c1 w1 c2 w2 c3 w3 : Option Unit) :
    Save c1 w1 = c1 ∧
    mainPersistAndConfirm hash pushEventMap blomfil halfblomfil
      { gobBloomErr := none, gobHalfErr := none, gobMapErr := none
        mapCreateErr := c1, mapWriteErr := w1
        bloomCreateErr := c2, bloomWriteErr := w2
        halfCreateErr := c3, halfWriteErr := w3 }
      = Outcome.completed (Confirm hash pushEventMap blomfil halfblomfil) := by
  constructor
  · cases c1 <;> rfl
  · rfl

/-- C9: the code at the failing input "-e=false": parsing the command
line per the spec's flag semantics yields false, yet main's config has
TracingEnabled true (flag.Parse is never called, so the registered
default survives) and setupTracing starts the tracer. -/
theorem tracing_flag_ignored :
    parsedFlagE ["-e=false"] = false ∧
    (mainConfig ["-e=false"]).TracingEnabled = true ∧
    setupTracing (mainConfig ["-e=false"]) none none = TraceSetup.started := by
  refine ⟨?_, rfl, rfl⟩
  rfl

end BloomVsMap
